import Mathlib

/-
Verification of the Debatrium PDF preprocessing pipeline.

This file gives a shallow embedding of the pipeline's core functions:
  - backend/utils/chunkText.js        (chunkText)
  - backend/workers (pdfPreprocess worker: processPdfPreprocess, markAsFailed)
  - backend/queues/pdfPreprocess.queue.js (enqueuePdfPreprocess)
  - backend/server.js                 (recoverOrphanedPdfs)
and proves properties of the embedded definitions.

Strings are modelled as lists of characters. JavaScript machine
numbers only appear as non-negative sizes and indices, modelled as Nat;
the one place where a JS subtraction can go negative (start = end -
overlap, immediately clamped to 0 by the source) coincides with Nat
truncated subtraction. The worker's loop has no termination guarantee in
the source, so it is embedded with explicit fuel: a result of none means
the given fuel was exhausted before the loop exited.
-/

namespace Debatrium

/-- Whitespace test matching the characters removed by the JavaScript
string trim operation as used in chunkText.js (space, tab, line feed,
carriage return, vertical tab, form feed, no-break space). -/
def isJsWhite (c : Char) : Bool :=
  c == ' ' || c == '\t' || c == '\n' || c == '\r' ||
  c == Char.ofNat 11 || c == Char.ofNat 12 || c == Char.ofNat 160

/-- Drop leading whitespace. -/
def trimLeft (s : List Char) : List Char := s.dropWhile isJsWhite

/-- Drop trailing whitespace. -/
def trimRight (s : List Char) : List Char := (s.reverse.dropWhile isJsWhite).reverse

/-- Model of the JavaScript trim call in chunkText.js line 19. -/
def jsTrim (s : List Char) : List Char := trimRight (trimLeft s)

/-- A chunk record as produced by chunkText.js: a zero-based index and the
chunk text. -/
structure Chunk where
  index : Nat
  text : List Char
deriving Repr, DecidableEq

/-- Loop body of chunkText (chunkText.js lines 17-32), with explicit fuel.
Per iteration with cursor start below the text length: end is
min (start + chunkSize) (length), the candidate chunk is the trimmed
slice from start to end, a non-empty candidate is appended with the
current index, and the cursor becomes end - overlap clamped at zero
(Nat subtraction). Fuel exhaustion while the loop guard still holds
yields none. -/
def chunkLoop (chunkSize overlap : Nat) (text : List Char) :
    Nat → Nat → Nat → List Chunk → Option (List Chunk)
  | 0, start, _, acc =>
    if start < text.length then none else some acc
  | fuel + 1, start, idx, acc =>
    if start < text.length then
      let e := min (start + chunkSize) text.length
      let c := jsTrim ((text.drop start).take (e - start))
      if c = [] then
        chunkLoop chunkSize overlap text fuel (e - overlap) idx acc
      else
        chunkLoop chunkSize overlap text fuel (e - overlap) (idx + 1) (acc ++ [⟨idx, c⟩])
    else some acc

/-- Model of chunkText (chunkText.js lines 10-35). An empty input returns
the empty chunk list at once (the falsy-input guard); otherwise the loop
runs from cursor 0 with the given fuel. -/
def chunkText (text : List Char) (chunkSize overlap : Nat) (fuel : Nat) :
    Option (List Chunk) :=
  if text = [] then some [] else chunkLoop chunkSize overlap text fuel 0 0 []

/-- Dropping while a predicate holds is idempotent. -/
theorem dropWhile_self (p : Char → Bool) (l : List Char) :
    (l.dropWhile p).dropWhile p = l.dropWhile p := by
  induction l with
  | nil => rfl
  | cons a t ih =>
    by_cases h : p a
    · simp only [List.dropWhile_cons, h, if_true]
      exact ih
    · simp [List.dropWhile_cons, h]

/-- A prefix of a list unchanged by dropWhile is itself unchanged. -/
theorem dropWhile_eq_self_of_prefix (p : Char → Bool) {l m : List Char}
    (hpre : m <+: l) (hl : l.dropWhile p = l) : m.dropWhile p = m := by
  cases m with
  | nil => rfl
  | cons a t =>
    obtain ⟨r, hr⟩ := hpre
    by_cases hpa : p a
    · exfalso
      rw [← hr, List.cons_append, List.dropWhile_cons, if_pos hpa] at hl
      have hlen := congrArg List.length hl
      have hle : (List.dropWhile p (t ++ r)).length ≤ (t ++ r).length :=
        (List.dropWhile_suffix p).sublist.length_le
      simp only [List.length_cons] at hlen
      omega
    · simp [List.dropWhile_cons, hpa]

/-- Right trim keeps an initial segment of the list. -/
theorem trimRight_front (s : List Char) : trimRight s <+: s := by
  unfold trimRight
  obtain ⟨t, ht⟩ := List.dropWhile_suffix (l := s.reverse) isJsWhite
  exact ⟨t.reverse, by rw [← List.reverse_append, ht, List.reverse_reverse]⟩

/-- The trim of chunkText.js is idempotent. -/
theorem jsTrim_idem (s : List Char) : jsTrim (jsTrim s) = jsTrim s := by
  unfold jsTrim trimLeft
  have h1 : (s.dropWhile isJsWhite).dropWhile isJsWhite = s.dropWhile isJsWhite :=
    dropWhile_self isJsWhite s
  have h2 : (trimRight (s.dropWhile isJsWhite)).dropWhile isJsWhite
      = trimRight (s.dropWhile isJsWhite) :=
    dropWhile_eq_self_of_prefix isJsWhite (trimRight_front _) h1
  rw [h2]
  unfold trimRight
  rw [List.reverse_reverse, dropWhile_self]

/-- Trimming never lengthens a list. -/
theorem jsTrim_length_le (s : List Char) : (jsTrim s).length ≤ s.length := by
  have h1 : (trimRight (trimLeft s)).length ≤ (trimLeft s).length :=
    (trimRight_front (trimLeft s)).sublist.length_le
  have h2 : (trimLeft s).length ≤ s.length :=
    (List.dropWhile_suffix isJsWhite).sublist.length_le
  exact le_trans h1 h2

/-- Chunk lists whose records carry consecutive indices counting up from n. -/
def indexedFrom : Nat → List Chunk → Prop
  | _, [] => True
  | n, c :: cs => c.index = n ∧ indexedFrom (n + 1) cs

/-- A chunk as emitted by the loop of chunkText: non-empty, fixed by trim,
and no longer than chunkSize. -/
def goodChunk (chunkSize : Nat) (c : Chunk) : Prop :=
  c.text ≠ [] ∧ jsTrim c.text = c.text ∧ c.text.length ≤ chunkSize

theorem indexedFrom_append {cs : List Chunk} {c : Chunk} :
    ∀ n, indexedFrom n cs → c.index = n + cs.length → indexedFrom n (cs ++ [c]) := by
  induction cs with
  | nil => intro n _ hc; exact ⟨by simpa using hc, trivial⟩
  | cons a t ih =>
    intro n h hc
    exact ⟨h.1, ih (n + 1) h.2 (by simp only [List.length_cons] at hc ⊢; omega)⟩

theorem indexedFrom_get {cs : List Chunk} :
    ∀ n, indexedFrom n cs → ∀ i (h : i < cs.length), (cs.get ⟨i, h⟩).index = n + i := by
  induction cs with
  | nil => intro n _ i h; exact absurd h (by simp)
  | cons a t ih =>
    intro n hidx i h
    cases i with
    | zero => simpa using hidx.1
    | succ j =>
      have h' : j < t.length := by simpa using Nat.lt_of_succ_lt_succ h
      have hj := ih (n + 1) hidx.2 j h'
      show (t.get ⟨j, h'⟩).index = n + (j + 1)
      rw [hj]; omega

/-- Loop invariant for chunkLoop: starting from a well-indexed accumulator of
good chunks, any list the loop returns is well indexed and made of good
chunks. -/
theorem chunkLoop_good (chunkSize overlap : Nat) (text : List Char) :
    ∀ fuel start idx acc out,
      acc.length = idx → indexedFrom 0 acc → (∀ c ∈ acc, goodChunk chunkSize c) →
      chunkLoop chunkSize overlap text fuel start idx acc = some out →
      indexedFrom 0 out ∧ ∀ c ∈ out, goodChunk chunkSize c := by
  intro fuel
  induction fuel with
  | zero =>
    intro start idx acc out hlen hidx hgood h
    unfold chunkLoop at h
    split at h
    · exact absurd h (by simp)
    · exact ⟨by injection h with h; rw [← h]; exact hidx,
        by injection h with h; rw [← h]; exact hgood⟩
  | succ fuel ih =>
    intro start idx acc out hlen hidx hgood h
    unfold chunkLoop at h
    split at h
    · set e := min (start + chunkSize) text.length with he
      set c := jsTrim ((text.drop start).take (e - start)) with hc
      by_cases hce : c = []
      · rw [if_pos hce] at h
        exact ih (e - overlap) idx acc out hlen hidx hgood h
      · rw [if_neg hce] at h
        refine ih (e - overlap) (idx + 1) (acc ++ [⟨idx, c⟩]) out (by simp [hlen]) ?_ ?_ h
        · exact indexedFrom_append 0 hidx (by simpa using hlen.symm)
        · intro d hd
          rcases List.mem_append.mp hd with hd | hd
          · exact hgood d hd
          · have hdc : d = ⟨idx, c⟩ := by simpa using hd
            subst hdc
            refine ⟨hce, ?_, ?_⟩
            · rw [hc]; exact jsTrim_idem _
            · calc (jsTrim ((text.drop start).take (e - start))).length
                  ≤ ((text.drop start).take (e - start)).length := jsTrim_length_le _
                _ ≤ e - start := by simp
                _ ≤ chunkSize := by omega
    · exact ⟨by injection h with h; rw [← h]; exact hidx,
        by injection h with h; rw [← h]; exact hgood⟩

/-- C10: whenever chunkText returns a chunk list, the k-th emitted chunk has
index k (zero-based consecutive indices), and every chunk text is non-empty,
equal to its own trim, and at most chunkSize characters long. -/
theorem chunkText_output_good (text : List Char) (chunkSize overlap fuel : Nat)
    (out : List Chunk) (h : chunkText text chunkSize overlap fuel = some out) :
    (∀ i (hi : i < out.length), (out.get ⟨i, hi⟩).index = i)
    ∧ ∀ c ∈ out, c.text ≠ [] ∧ jsTrim c.text = c.text ∧ c.text.length ≤ chunkSize := by
  unfold chunkText at h
  split at h
  · have hout : out = [] := by injection h with h; exact h.symm
    subst hout
    exact ⟨fun i hi => absurd hi (by simp), fun c hc => absurd hc (by simp)⟩
  · have hg := chunkLoop_good chunkSize overlap text fuel 0 0 [] out rfl trivial
      (fun c hc => absurd hc (by simp)) h
    exact ⟨fun i hi => by simpa using indexedFrom_get 0 hg.1 i hi, hg.2⟩

/-- C10 witness: chunkText on the empty input returns the empty chunk list,
which satisfies the output properties. -/
theorem chunkText_output_good_witness :
    chunkText [] 1200 250 0 = some []
    ∧ ((∀ i (hi : i < ([] : List Chunk).length), (([] : List Chunk).get ⟨i, hi⟩).index = i)
        ∧ ∀ c ∈ ([] : List Chunk), c.text ≠ [] ∧ jsTrim c.text = c.text ∧ c.text.length ≤ 1200) :=
  ⟨rfl, chunkText_output_good [] 1200 250 0 [] rfl⟩

/-- With text ab, chunkSize 3 and overlap 1, once the cursor is 1 the loop
recomputes end as the text length 2, emits the trimmed slice b, and resets
the cursor to 2 - 1 = 1: the loop never exits, whatever fuel it is given. -/
theorem chunkLoop_ab_stuck :
    ∀ fuel idx acc, chunkLoop 3 1 ('a' :: 'b' :: []) fuel 1 idx acc = none := by
  intro fuel
  induction fuel with
  | zero => intro idx acc; rfl
  | succ fuel ih =>
    intro idx acc
    have hb : jsTrim (List.take (2 - 1) (List.drop 1 ('a' :: 'b' :: []))) = 'b' :: [] := by
      decide
    unfold chunkLoop
    rw [if_pos (by decide)]
    simp only [List.length_cons, List.length_nil]
    rw [show min (1 + 3) 2 = 2 by decide]
    rw [hb, if_neg (by simp)]
    show chunkLoop 3 1 ('a' :: 'b' :: []) fuel 1 (idx + 1) (acc ++ [⟨idx, 'b' :: []⟩]) = none
    exact ih (idx + 1) (acc ++ [⟨idx, 'b' :: []⟩])

/-- C1 (refuted by the code): on the two-character input ab with
chunkSize 3 and overlap 1 (so 0 < overlap < chunkSize), chunkText never
terminates: whatever fuel the loop is given, it is exhausted. After the
first iteration the cursor is 2 - 1 = 1 and every later iteration maps
cursor 1 back to 1, so the cursor does not strictly increase and the loop
guard start < length never becomes false. -/
theorem chunkText_ab_diverges (fuel : Nat) :
    chunkText ('a' :: 'b' :: []) 3 1 fuel = none := by
  unfold chunkText
  rw [if_neg (by simp)]
  cases fuel with
  | zero => rfl
  | succ fuel =>
    have hab : jsTrim (List.take (2 - 0) (List.drop 0 ('a' :: 'b' :: []))) = 'a' :: 'b' :: [] := by
      decide
    unfold chunkLoop
    rw [if_pos (by decide)]
    simp only [List.length_cons, List.length_nil]
    rw [show min (0 + 3) 2 = 2 by decide]
    rw [hab, if_neg (by simp)]
    show chunkLoop 3 1 ('a' :: 'b' :: []) fuel 1 1 [⟨0, 'a' :: 'b' :: []⟩] = none
    exact chunkLoop_ab_stuck fuel 1 [⟨0, 'a' :: 'b' :: []⟩]

/-- The preprocessStatus enumeration of the Pdf schema. -/
inductive PStatus
  | pending
  | processing
  | completed
  | failed
  | deleting
deriving DecidableEq, Repr

/-- The fields of the loaded Pdf document that the worker reads. -/
structure PdfDoc where
  preprocessStatus : PStatus
  size : Nat
  publicId : String
  userId : Nat
deriving Repr, DecidableEq

/-- State of one document record in the document store: whether the record
is present, and its status, extracted-text and content-hash fields. -/
structure DocState where
  present : Bool
  preprocessStatus : PStatus
  extractedText : Option (List Char)
  contentHash : Option (List Char)
deriving Repr, DecidableEq

/-- The write operations the worker issues against the document store, the
blob store and the chunk store, in program order. Reads (the initial load
and the existence re-check) and job-progress updates are not recorded. An
update or insert is recorded only when the store accepts it. -/
inductive Op
  | setProcessing
  | markFailed
  | saveTextHash (text hash : List Char)
  | destroyBlob (publicId : String)
  | deleteDoc
  | insertChunks (n : Nat)
  | markCompleted
deriving Repr, DecidableEq

/-- Model of markAsFailed in the worker: an update whose filter matches the
document only when its preprocessStatus differs from completed, setting
preprocessStatus to failed. An update filter that matches no record leaves
the store unchanged. -/
def markAsFailed (d : DocState) : DocState :=
  if d.present = true ∧ d.preprocessStatus ≠ PStatus.completed then
    { d with preprocessStatus := PStatus.failed }
  else d

/-- Document-store semantics of each operation, read off the filter and the
set clause of the corresponding call in the worker. Blob-store and
chunk-store operations leave the document record unchanged. -/
def applyOp : Op → DocState → DocState
  | Op.setProcessing, d =>
    if d.present = true ∧ d.preprocessStatus = PStatus.pending then
      { d with preprocessStatus := PStatus.processing }
    else d
  | Op.markFailed, d => markAsFailed d
  | Op.saveTextHash t h, d =>
    if d.present = true then { d with extractedText := some t, contentHash := some h }
    else d
  | Op.destroyBlob _, d => d
  | Op.deleteDoc, d => { d with present := false }
  | Op.insertChunks _, d => d
  | Op.markCompleted, d =>
    if d.present = true then { d with preprocessStatus := PStatus.completed } else d

/-- Result of a document-store or chunk-store write as observed by the
worker: accepted, rejected with the duplicate-key error code 11000, or
rejected with any other error. -/
inductive WriteRes
  | ok
  | dupKey
  | err (msg : String)
deriving Repr, DecidableEq

/-- The worker's external collaborators, fixed for one run of the job
routine: the loaded document, the outcomes of the blob-store download, the
text extraction, the two fallible writes, the existence re-check (given as
the document-store state at that instant), and the pure library functions
the worker imports (sanitizeExtractedText, the sha256 hex digest, and
chunkText, the last embedded separately above and therefore kept abstract
here). The result of the blob destroy call is unused because the worker
ignores it. -/
structure WorkerEnv where
  doc : Option PdfDoc
  download : Except String Unit
  extract : Except String (List Char)
  sanitize : List Char → List Char
  hashHex : List Char → List Char
  saveRes : WriteRes
  destroyOk : Bool
  dbAtRecheck : DocState
  chunker : List Char → List Chunk
  insertRes : WriteRes

/-- The maximum accepted source size of 20MB from the worker. -/
def MAX_PDF_SIZE : Nat := 20 * 1024 * 1024

/-- A value returned by the job routine. -/
inductive JobValue
  | skipped (reason : String)
  | failed (reason : String)
  | completed (chunkCount : Nat)
deriving Repr, DecidableEq

/-- How one run of the job routine ends: a returned value (terminal, the
broker does not retry) or an uncaught error (the broker retries). -/
inductive RunEnd
  | returned (r : JobValue)
  | thrown (msg : String)
deriving Repr, DecidableEq

/-- The worker's terminal-result helper for permanent failures. -/
def permanentFailure (reason : String) : JobValue := JobValue.failed reason

/-- Model of processPdfPreprocess, the worker's job routine, translated
step by step from the source: load and the two skip guards, the
pending-to-processing transition, the size limit, download (failure is
logged and rethrown), extraction (failure is terminal after markAsFailed),
sanitation with the empty-text check, the text-and-hash save with its
duplicate-key branch (blob destroy, record delete, terminal result) and
rethrow of any other save error, the conditional existence re-check before
the chunk bulk insert whose duplicate-key failures are swallowed, and the
final completed transition. The outer catch only rethrows, so an error from
any inner step ends the run as thrown. The returned pair is the run's end
and the ordered list of accepted store writes. -/
def processPdfPreprocess (env : WorkerEnv) : RunEnd × List Op :=
  match env.doc with
  | none => (RunEnd.returned (JobValue.skipped "not_found"), [])
  | some pdf =>
    if pdf.preprocessStatus = PStatus.completed then
      (RunEnd.returned (JobValue.skipped "already_completed"), [])
    else
      let t0 : List Op :=
        if pdf.preprocessStatus = PStatus.pending then [Op.setProcessing] else []
      if MAX_PDF_SIZE < pdf.size then
        (RunEnd.returned (permanentFailure "pdf_too_large"), t0 ++ [Op.markFailed])
      else
        match env.download with
        | Except.error e => (RunEnd.thrown e, t0)
        | Except.ok _ =>
          match env.extract with
          | Except.error e =>
            (RunEnd.returned (permanentFailure ("extract_failed: " ++ e)),
              t0 ++ [Op.markFailed])
          | Except.ok rawText =>
            let extractedText := env.sanitize rawText
            if jsTrim extractedText = [] then
              (RunEnd.returned (permanentFailure "no_text"), t0 ++ [Op.markFailed])
            else
              let contentHash := env.hashHex extractedText
              match env.saveRes with
              | WriteRes.err e => (RunEnd.thrown e, t0)
              | WriteRes.dupKey =>
                (RunEnd.returned (permanentFailure "duplicate_pdf_deleted"),
                  t0 ++ [Op.destroyBlob pdf.publicId, Op.deleteDoc])
              | WriteRes.ok =>
                let t1 := t0 ++ [Op.saveTextHash extractedText contentHash]
                let chunks := env.chunker extractedText
                if 0 < chunks.length then
                  if env.dbAtRecheck.present = true then
                    match env.insertRes with
                    | WriteRes.err e => (RunEnd.thrown e, t1)
                    | _ =>
                      (RunEnd.returned (JobValue.completed chunks.length),
                        t1 ++ [Op.insertChunks chunks.length, Op.markCompleted])
                  else
                    (RunEnd.returned (permanentFailure "pdf_deleted_during_processing"), t1)
                else
                  (RunEnd.returned (JobValue.completed chunks.length),
                    t1 ++ [Op.markCompleted])

/-- How one run ends. -/
def runEnd (env : WorkerEnv) : RunEnd := (processPdfPreprocess env).1

/-- The ordered store writes of one run. -/
def runTrace (env : WorkerEnv) : List Op := (processPdfPreprocess env).2

/-- Replay a list of operations against a document-store state. -/
def applyTrace (tr : List Op) (d : DocState) : DocState :=
  tr.foldl (fun s op => applyOp op s) d

/-- The save of extractedText and contentHash never changes the status
field, whatever document state it is applied to. -/
theorem saveTextHash_keeps_status (t hsh : List Char) (d : DocState) :
    (applyOp (Op.saveTextHash t hsh) d).preprocessStatus = d.preprocessStatus := by
  simp only [applyOp]
  split <;> rfl

/-- Among the worker's operations only markCompleted can move a document
into the completed status. -/
theorem status_completed_of_applyOp (op : Op) (d : DocState)
    (hop : op ≠ Op.markCompleted)
    (h : (applyOp op d).preprocessStatus = PStatus.completed) :
    d.preprocessStatus = PStatus.completed := by
  cases op with
  | setProcessing =>
    simp only [applyOp] at h
    split at h <;> simp_all
  | markFailed =>
    simp only [applyOp, markAsFailed] at h
    split at h <;> simp_all
  | saveTextHash t hsh =>
    simp only [applyOp] at h
    split at h <;> simp_all
  | destroyBlob p => exact h
  | deleteDoc => exact h
  | insertChunks n => exact h
  | markCompleted => exact absurd rfl hop

/-- C9: the failed-marking update filters out completed documents, so a
document whose preprocessStatus is completed is left exactly as it is by
markAsFailed, and no worker operation at all can move it to failed. -/
theorem markAsFailed_protects_completed (d : DocState)
    (h : d.preprocessStatus = PStatus.completed) :
    markAsFailed d = d
    ∧ ∀ op : Op, (applyOp op d).preprocessStatus ≠ PStatus.failed := by
  constructor
  · unfold markAsFailed
    rw [if_neg]
    simp [h]
  · intro op
    cases op with
    | setProcessing =>
      simp only [applyOp]
      split <;> simp_all
    | markFailed =>
      simp only [applyOp, markAsFailed]
      split <;> simp_all
    | saveTextHash t hsh =>
      simp only [applyOp]
      split <;> simp_all
    | destroyBlob p => simp only [applyOp]; simp [h]
    | deleteDoc => simp only [applyOp]; simp [h]
    | insertChunks n => simp only [applyOp]; simp [h]
    | markCompleted =>
      simp only [applyOp]
      split <;> simp_all

/-- C9 witness: a concrete completed document is untouched by markAsFailed
and cannot be moved to failed. -/
theorem markAsFailed_protects_completed_witness :
    markAsFailed ⟨true, PStatus.completed, none, none⟩ = ⟨true, PStatus.completed, none, none⟩
    ∧ ∀ op : Op,
        (applyOp op ⟨true, PStatus.completed, none, none⟩).preprocessStatus ≠ PStatus.failed :=
  markAsFailed_protects_completed ⟨true, PStatus.completed, none, none⟩ rfl

/-- C6: a missing document record, or one whose preprocessStatus is already
completed, ends the run as a skipped terminal result with an empty write
trace, so no document-store, chunk-store or blob-store write happens. -/
theorem worker_skips_without_writes (env : WorkerEnv) :
    (env.doc = none →
      processPdfPreprocess env = (RunEnd.returned (JobValue.skipped "not_found"), []))
    ∧ (∀ pdf, env.doc = some pdf → pdf.preprocessStatus = PStatus.completed →
      processPdfPreprocess env
        = (RunEnd.returned (JobValue.skipped "already_completed"), [])) := by
  constructor
  · intro h
    simp only [processPdfPreprocess, h]
  · intro pdf h hc
    simp only [processPdfPreprocess, h, hc, if_true]

/-- A concrete environment whose document record is absent. -/
def envAbsent : WorkerEnv where
  doc := none
  download := Except.ok ()
  extract := Except.ok []
  sanitize := fun s => s
  hashHex := fun s => s
  saveRes := WriteRes.ok
  destroyOk := true
  dbAtRecheck := ⟨false, PStatus.processing, none, none⟩
  chunker := fun _ => []
  insertRes := WriteRes.ok

/-- C6 witness: on the concrete environment with an absent document the run
returns skipped and writes nothing. -/
theorem worker_skips_without_writes_witness :
    processPdfPreprocess envAbsent
      = (RunEnd.returned (JobValue.skipped "not_found"), []) :=
  (worker_skips_without_writes envAbsent).1 rfl

/-- Replaying the optional pending-to-processing transition followed by the
failed-marking update on a present, not-yet-completed document leaves it
failed. -/
theorem applyTrace_markFailed (pdf : PdfDoc) (d0 : DocState)
    (hp : d0.present = true) (hs : d0.preprocessStatus = pdf.preprocessStatus)
    (hnc : pdf.preprocessStatus ≠ PStatus.completed) :
    (applyTrace
        ((if pdf.preprocessStatus = PStatus.pending then [Op.setProcessing] else [])
          ++ [Op.markFailed]) d0).preprocessStatus = PStatus.failed := by
  by_cases hpend : pdf.preprocessStatus = PStatus.pending
  · rw [if_pos hpend]
    show (markAsFailed (applyOp Op.setProcessing d0)).preprocessStatus = PStatus.failed
    have h1 : applyOp Op.setProcessing d0 = { d0 with preprocessStatus := PStatus.processing } := by
      simp only [applyOp]
      rw [if_pos ⟨hp, by rw [hs, hpend]⟩]
    rw [h1]
    unfold markAsFailed
    rw [if_pos ⟨hp, by simp⟩]
  · rw [if_neg hpend]
    show (markAsFailed d0).preprocessStatus = PStatus.failed
    unfold markAsFailed
    rw [if_pos ⟨hp, by rw [hs]; exact hnc⟩]

/-- C3: each permanent-failure cause — a source above the 20MB limit, a
text-extraction failure, or sanitized text that trims to nothing — ends the
run with a returned terminal failed result and leaves the document's
preprocessStatus failed, while a blob-store download failure ends the run
with the error rethrown uncaught. -/
theorem worker_failure_taxonomy (env : WorkerEnv) (pdf : PdfDoc) (d0 : DocState)
    (hdoc : env.doc = some pdf) (hnc : pdf.preprocessStatus ≠ PStatus.completed)
    (hp : d0.present = true) (hs : d0.preprocessStatus = pdf.preprocessStatus) :
    (MAX_PDF_SIZE < pdf.size →
        runEnd env = RunEnd.returned (permanentFailure "pdf_too_large")
        ∧ (applyTrace (runTrace env) d0).preprocessStatus = PStatus.failed)
    ∧ (pdf.size ≤ MAX_PDF_SIZE → ∀ e, env.download = Except.error e →
        runEnd env = RunEnd.thrown e)
    ∧ (pdf.size ≤ MAX_PDF_SIZE → env.download = Except.ok () →
        ∀ e, env.extract = Except.error e →
        runEnd env = RunEnd.returned (permanentFailure ("extract_failed: " ++ e))
        ∧ (applyTrace (runTrace env) d0).preprocessStatus = PStatus.failed)
    ∧ (pdf.size ≤ MAX_PDF_SIZE → env.download = Except.ok () →
        ∀ raw, env.extract = Except.ok raw → jsTrim (env.sanitize raw) = [] →
        runEnd env = RunEnd.returned (permanentFailure "no_text")
        ∧ (applyTrace (runTrace env) d0).preprocessStatus = PStatus.failed) := by
  refine ⟨?_, ?_, ?_, ?_⟩
  · intro hsize
    constructor
    · simp only [runEnd, processPdfPreprocess, hdoc, hnc, hsize, if_true, if_false,
        ite_false]
    · simp only [runTrace, processPdfPreprocess, hdoc, hnc, hsize, if_true, if_false,
        ite_false]
      exact applyTrace_markFailed pdf d0 hp hs hnc
  · intro hsize e hdl
    have hsz : ¬ MAX_PDF_SIZE < pdf.size := Nat.not_lt.mpr hsize
    simp only [runEnd, processPdfPreprocess, hdoc, hnc, hsz, hdl, if_true, if_false,
      ite_false]
  · intro hsize hdl e hex
    have hsz : ¬ MAX_PDF_SIZE < pdf.size := Nat.not_lt.mpr hsize
    constructor
    · simp only [runEnd, processPdfPreprocess, hdoc, hnc, hsz, hdl, hex, if_true,
        if_false, ite_false]
    · simp only [runTrace, processPdfPreprocess, hdoc, hnc, hsz, hdl, hex, if_true,
        if_false, ite_false]
      exact applyTrace_markFailed pdf d0 hp hs hnc
  · intro hsize hdl raw hex htrim
    have hsz : ¬ MAX_PDF_SIZE < pdf.size := Nat.not_lt.mpr hsize
    constructor
    · simp only [runEnd, processPdfPreprocess, hdoc, hnc, hsz, hdl, hex, htrim, if_true,
        if_false, ite_false]
    · simp only [runTrace, processPdfPreprocess, hdoc, hnc, hsz, hdl, hex, htrim, if_true,
        if_false, ite_false]
      exact applyTrace_markFailed pdf d0 hp hs hnc

/-- A concrete pending document record of size one byte. -/
def pdfSmall : PdfDoc := ⟨PStatus.pending, 1, "pub-1", 7⟩

/-- A concrete oversized document record in the pending state. -/
def pdfBig : PdfDoc := ⟨PStatus.pending, 20 * 1024 * 1024 + 1, "pub-2", 7⟩

/-- A concrete environment whose document exceeds the size limit. -/
def envBig : WorkerEnv where
  doc := some pdfBig
  download := Except.ok ()
  extract := Except.ok ('a' :: [])
  sanitize := fun s => s
  hashHex := fun s => s
  saveRes := WriteRes.ok
  destroyOk := true
  dbAtRecheck := ⟨true, PStatus.processing, none, none⟩
  chunker := fun _ => []
  insertRes := WriteRes.ok

/-- C3 witness: on the concrete oversized-document environment, starting
from a matching pending store state, the run returns the terminal
pdf_too_large result and the stored document ends up failed. -/
theorem worker_failure_taxonomy_witness :
    runEnd envBig = RunEnd.returned (permanentFailure "pdf_too_large")
    ∧ (applyTrace (runTrace envBig) ⟨true, PStatus.pending, none, none⟩).preprocessStatus
        = PStatus.failed :=
  (worker_failure_taxonomy envBig pdfBig ⟨true, PStatus.pending, none, none⟩
    rfl (by decide) rfl rfl).1 (by decide)

/-- C4: when the save of extractedText and contentHash is rejected with the
duplicate-key error of the owner and content-hash uniqueness index, the run
issues the blob-store destroy for the document's publicId, deletes the
document record, and returns the terminal duplicate-deleted result rather
than throwing, so the broker does not retry. -/
theorem worker_duplicate_deleted (env : WorkerEnv) (pdf : PdfDoc)
    (hdoc : env.doc = some pdf) (hnc : pdf.preprocessStatus ≠ PStatus.completed)
    (hsize : pdf.size ≤ MAX_PDF_SIZE) (hdl : env.download = Except.ok ())
    (raw : List Char) (hex : env.extract = Except.ok raw)
    (hne : jsTrim (env.sanitize raw) ≠ []) (hdup : env.saveRes = WriteRes.dupKey) :
    runEnd env = RunEnd.returned (permanentFailure "duplicate_pdf_deleted")
    ∧ Op.destroyBlob pdf.publicId ∈ runTrace env
    ∧ Op.deleteDoc ∈ runTrace env
    ∧ ∀ d0 : DocState, (applyTrace (runTrace env) d0).present = false := by
  have hsz : ¬ MAX_PDF_SIZE < pdf.size := Nat.not_lt.mpr hsize
  have htr : runTrace env
      = (if pdf.preprocessStatus = PStatus.pending then [Op.setProcessing] else [])
        ++ [Op.destroyBlob pdf.publicId, Op.deleteDoc] := by
    simp only [runTrace, processPdfPreprocess, hdoc, hnc, hsz, hdl, hex, hne, hdup,
      if_true, if_false, ite_false]
  refine ⟨?_, ?_, ?_, ?_⟩
  · simp only [runEnd, processPdfPreprocess, hdoc, hnc, hsz, hdl, hex, hne, hdup,
      if_true, if_false, ite_false]
  · rw [htr]; simp
  · rw [htr]; simp
  · intro d0
    rw [htr]
    by_cases hpend : pdf.preprocessStatus = PStatus.pending
    · rw [if_pos hpend]; rfl
    · rw [if_neg hpend]; rfl

/-- A concrete environment in which the text-and-hash save hits the
duplicate-key error. -/
def envDup : WorkerEnv where
  doc := some pdfSmall
  download := Except.ok ()
  extract := Except.ok ('a' :: [])
  sanitize := fun s => s
  hashHex := fun s => s
  saveRes := WriteRes.dupKey
  destroyOk := true
  dbAtRecheck := ⟨true, PStatus.processing, none, none⟩
  chunker := fun _ => []
  insertRes := WriteRes.ok

/-- C4 witness: on the concrete duplicate-save environment the run returns
the terminal duplicate-deleted result, destroys the blob, and the document
record ends up absent. -/
theorem worker_duplicate_deleted_witness :
    runEnd envDup = RunEnd.returned (permanentFailure "duplicate_pdf_deleted")
    ∧ Op.destroyBlob pdfSmall.publicId ∈ runTrace envDup
    ∧ Op.deleteDoc ∈ runTrace envDup
    ∧ ∀ d0 : DocState, (applyTrace (runTrace envDup) d0).present = false :=
  worker_duplicate_deleted envDup pdfSmall rfl (by decide) (by decide) rfl
    ('a' :: []) rfl (by decide) rfl

/-- The optional pending-to-processing transition list contains at most the
setProcessing operation. -/
theorem setProcessing_mem_of_mem_ite {c : Prop} [Decidable c] {op : Op}
    (h : op ∈ (if c then [Op.setProcessing] else ([] : List Op))) :
    op = Op.setProcessing := by
  split at h
  · simpa using h
  · simp at h

/-- A chunk insert never sits in the optional pending-to-processing
transition followed by a given tail free of chunk inserts. -/
theorem insertChunks_not_mem_t0_append {c : Prop} [Decidable c] {rest : List Op} {n : Nat}
    (hrest : Op.insertChunks n ∉ rest) :
    Op.insertChunks n ∉ (if c then [Op.setProcessing] else ([] : List Op)) ++ rest := by
  intro hm
  rcases List.mem_append.mp hm with h1 | h1
  · exact absurd (setProcessing_mem_of_mem_ite h1) (by simp)
  · exact hrest h1

/-- C2: every run of the job routine returning completed saves
extractedText and contentHash with a write that cannot modify
preprocessStatus, and performs the completed transition as the very last
write of the run, after the successful chunk insertion whenever one
happened: every write before it is unable to move a document into the
completed status. -/
theorem worker_completed_ordering (env : WorkerEnv) (n : Nat)
    (h : runEnd env = RunEnd.returned (JobValue.completed n)) :
    (∀ t hsh d, (applyOp (Op.saveTextHash t hsh) d).preprocessStatus = d.preprocessStatus)
    ∧ ∃ pre t hsh, runTrace env = pre ++ [Op.markCompleted]
        ∧ Op.saveTextHash t hsh ∈ pre
        ∧ Op.markCompleted ∉ pre
        ∧ (0 < n → Op.insertChunks n ∈ pre)
        ∧ ∀ op ∈ pre, ∀ d : DocState,
            (applyOp op d).preprocessStatus = PStatus.completed →
            d.preprocessStatus = PStatus.completed := by
  refine ⟨fun t hsh d => saveTextHash_keeps_status t hsh d, ?_⟩
  rcases hdoc : env.doc with _ | pdf
  · simp [runEnd, processPdfPreprocess, hdoc] at h
  by_cases hc : pdf.preprocessStatus = PStatus.completed
  · simp [runEnd, processPdfPreprocess, hdoc, hc] at h
  by_cases hsz : MAX_PDF_SIZE < pdf.size
  · simp [runEnd, processPdfPreprocess, hdoc, hc, hsz, permanentFailure] at h
  rcases hdl : env.download with e | u
  · simp [runEnd, processPdfPreprocess, hdoc, hc, hsz, hdl] at h
  rcases hex : env.extract with e | raw
  · simp [runEnd, processPdfPreprocess, hdoc, hc, hsz, hdl, hex, permanentFailure] at h
  by_cases htrim : jsTrim (env.sanitize raw) = []
  · simp [runEnd, processPdfPreprocess, hdoc, hc, hsz, hdl, hex, htrim,
      permanentFailure] at h
  rcases hsave : env.saveRes with _ | _ | e
  rotate_left
  · simp [runEnd, processPdfPreprocess, hdoc, hc, hsz, hdl, hex, htrim, hsave,
      permanentFailure] at h
  · simp [runEnd, processPdfPreprocess, hdoc, hc, hsz, hdl, hex, htrim, hsave] at h
  by_cases hlen : 0 < (env.chunker (env.sanitize raw)).length
  · by_cases hre : env.dbAtRecheck.present = true
    · have hrun : processPdfPreprocess env
          = (RunEnd.returned (JobValue.completed (env.chunker (env.sanitize raw)).length),
             ((if pdf.preprocessStatus = PStatus.pending then [Op.setProcessing] else [])
               ++ [Op.saveTextHash (env.sanitize raw) (env.hashHex (env.sanitize raw))])
               ++ [Op.insertChunks (env.chunker (env.sanitize raw)).length,
                   Op.markCompleted]) := by
        rcases hins : env.insertRes with _ | _ | e
        · simp [processPdfPreprocess, hdoc, hc, hsz, hdl, hex, htrim, hsave, hlen, hre,
            hins]
        · simp [processPdfPreprocess, hdoc, hc, hsz, hdl, hex, htrim, hsave, hlen, hre,
            hins]
        · exfalso
          simp [runEnd, processPdfPreprocess, hdoc, hc, hsz, hdl, hex, htrim, hsave,
            hlen, hre, hins] at h
      have hn : (env.chunker (env.sanitize raw)).length = n := by
        simp only [runEnd] at h
        rw [hrun] at h
        simpa using h
      refine ⟨(if pdf.preprocessStatus = PStatus.pending then [Op.setProcessing] else [])
          ++ [Op.saveTextHash (env.sanitize raw) (env.hashHex (env.sanitize raw)),
              Op.insertChunks (env.chunker (env.sanitize raw)).length],
        env.sanitize raw, env.hashHex (env.sanitize raw), ?_, by simp, ?_, ?_, ?_⟩
      · simp only [runTrace]
        rw [hrun]
        simp [List.append_assoc]
      · intro hm
        rcases List.mem_append.mp hm with h1 | h1
        · exact absurd (setProcessing_mem_of_mem_ite h1) (by simp)
        · simp at h1
      · intro _
        rw [← hn]
        simp
      · intro op hop d hcomp
        rcases List.mem_append.mp hop with h1 | h1
        · rw [setProcessing_mem_of_mem_ite h1] at hcomp
          exact status_completed_of_applyOp _ d (by simp) hcomp
        · simp only [List.mem_cons, List.mem_singleton, List.not_mem_nil, or_false] at h1
          rcases h1 with h1 | h1 <;> rw [h1] at hcomp <;>
            exact status_completed_of_applyOp _ d (by simp) hcomp
    · simp [runEnd, processPdfPreprocess, hdoc, hc, hsz, hdl, hex, htrim, hsave,
        hlen, hre, permanentFailure] at h
  · have hn : (env.chunker (env.sanitize raw)).length = n := by
      simp [runEnd, processPdfPreprocess, hdoc, hc, hsz, hdl, hex, htrim, hsave,
        hlen] at h
      exact h
    refine ⟨(if pdf.preprocessStatus = PStatus.pending then [Op.setProcessing] else [])
        ++ [Op.saveTextHash (env.sanitize raw) (env.hashHex (env.sanitize raw))],
      env.sanitize raw, env.hashHex (env.sanitize raw), ?_, by simp, ?_, ?_, ?_⟩
    · simp [runTrace, processPdfPreprocess, hdoc, hc, hsz, hdl, hex, htrim, hsave,
        hlen, List.append_assoc]
    · intro hm
      rcases List.mem_append.mp hm with h1 | h1
      · exact absurd (setProcessing_mem_of_mem_ite h1) (by simp)
      · simp at h1
    · intro h0
      exfalso
      omega
    · intro op hop d hcomp
      rcases List.mem_append.mp hop with h1 | h1
      · rw [setProcessing_mem_of_mem_ite h1] at hcomp
        exact status_completed_of_applyOp _ d (by simp) hcomp
      · simp only [List.mem_cons, List.mem_singleton, List.not_mem_nil, or_false] at h1
        rw [h1] at hcomp
        exact status_completed_of_applyOp _ d (by simp) hcomp

/-- A concrete environment in which every step succeeds: a pending
document, one chunk, all stores accepting. -/
def envHappy : WorkerEnv where
  doc := some pdfSmall
  download := Except.ok ()
  extract := Except.ok ('a' :: [])
  sanitize := fun s => s
  hashHex := fun s => s
  saveRes := WriteRes.ok
  destroyOk := true
  dbAtRecheck := ⟨true, PStatus.processing, none, none⟩
  chunker := fun _ => [⟨0, 'a' :: []⟩]
  insertRes := WriteRes.ok

/-- C2 witness: the concrete all-success environment returns completed, and
the theorem's ordering facts hold on it. -/
theorem worker_completed_ordering_witness :
    (∀ t hsh d, (applyOp (Op.saveTextHash t hsh) d).preprocessStatus = d.preprocessStatus)
    ∧ ∃ pre t hsh, runTrace envHappy = pre ++ [Op.markCompleted]
        ∧ Op.saveTextHash t hsh ∈ pre
        ∧ Op.markCompleted ∉ pre
        ∧ (0 < 1 → Op.insertChunks 1 ∈ pre)
        ∧ ∀ op ∈ pre, ∀ d : DocState,
            (applyOp op d).preprocessStatus = PStatus.completed →
            d.preprocessStatus = PStatus.completed :=
  worker_completed_ordering envHappy 1 (by decide)

/-- A concrete environment in which the document-store record is in the
deleting state, though still present, when the worker's pre-insert
existence re-check runs. -/
def envDeleting : WorkerEnv where
  doc := some pdfSmall
  download := Except.ok ()
  extract := Except.ok ('a' :: [])
  sanitize := fun s => s
  hashHex := fun s => s
  saveRes := WriteRes.ok
  destroyOk := true
  dbAtRecheck := ⟨true, PStatus.deleting, none, none⟩
  chunker := fun _ => [⟨0, 'a' :: []⟩]
  insertRes := WriteRes.ok

/-- C5 is refuted on the code: the pre-insert re-check tests record
existence only, so a run whose document is present but in the deleting
state at the re-check still inserts its chunk records and completes. -/
theorem worker_recheck_deleting_counterexample :
    envDeleting.dbAtRecheck.present = true
    ∧ envDeleting.dbAtRecheck.preprocessStatus = PStatus.deleting
    ∧ Op.insertChunks 1 ∈ runTrace envDeleting
    ∧ runEnd envDeleting = RunEnd.returned (JobValue.completed 1) := by
  decide

/-- C5 as amended: the pre-insert re-check consults record existence alone.
When the record is absent at the re-check the run never writes a chunk
insert, and a run that reaches the re-check with a non-empty chunk list
returns the terminal pdf_deleted_during_processing result. -/
theorem worker_recheck_absent_aborts (env : WorkerEnv)
    (habs : env.dbAtRecheck.present = false) :
    (∀ n, Op.insertChunks n ∉ runTrace env)
    ∧ (∀ pdf, env.doc = some pdf → pdf.preprocessStatus ≠ PStatus.completed →
        pdf.size ≤ MAX_PDF_SIZE → env.download = Except.ok () →
        ∀ raw, env.extract = Except.ok raw → jsTrim (env.sanitize raw) ≠ [] →
        env.saveRes = WriteRes.ok → 0 < (env.chunker (env.sanitize raw)).length →
        runEnd env = RunEnd.returned (permanentFailure "pdf_deleted_during_processing")) := by
  constructor
  · intro n
    rcases hdoc : env.doc with _ | pdf
    · simp [runTrace, processPdfPreprocess, hdoc]
    by_cases hc : pdf.preprocessStatus = PStatus.completed
    · simp [runTrace, processPdfPreprocess, hdoc, hc]
    by_cases hsz : MAX_PDF_SIZE < pdf.size
    · simp only [runTrace, processPdfPreprocess, hdoc, hc, hsz, if_true, if_false,
        ite_false]
      exact insertChunks_not_mem_t0_append (by simp)
    rcases hdl : env.download with e | u
    · simp only [runTrace, processPdfPreprocess, hdoc, hc, hsz, hdl, if_true, if_false,
        ite_false]
      intro hm
      exact absurd (setProcessing_mem_of_mem_ite hm) (by simp)
    rcases hex : env.extract with e | raw
    · simp only [runTrace, processPdfPreprocess, hdoc, hc, hsz, hdl, hex, if_true,
        if_false, ite_false]
      exact insertChunks_not_mem_t0_append (by simp)
    by_cases htrim : jsTrim (env.sanitize raw) = []
    · simp only [runTrace, processPdfPreprocess, hdoc, hc, hsz, hdl, hex, htrim, if_true,
        if_false, ite_false]
      exact insertChunks_not_mem_t0_append (by simp)
    rcases hsave : env.saveRes with _ | _ | e
    rotate_left
    · simp only [runTrace, processPdfPreprocess, hdoc, hc, hsz, hdl, hex, htrim, hsave,
        if_true, if_false, ite_false]
      exact insertChunks_not_mem_t0_append (by simp)
    · simp only [runTrace, processPdfPreprocess, hdoc, hc, hsz, hdl, hex, htrim, hsave,
        if_true, if_false, ite_false]
      intro hm
      exact absurd (setProcessing_mem_of_mem_ite hm) (by simp)
    by_cases hlen : 0 < (env.chunker (env.sanitize raw)).length
    · simp only [runTrace, processPdfPreprocess, hdoc, hc, hsz, hdl, hex, htrim, hsave,
        hlen, habs, if_true, if_false, ite_false, Bool.false_eq_true, List.append_assoc]
      exact insertChunks_not_mem_t0_append (by simp)
    · simp only [runTrace, processPdfPreprocess, hdoc, hc, hsz, hdl, hex, htrim, hsave,
        hlen, if_true, if_false, ite_false, List.append_assoc]
      exact insertChunks_not_mem_t0_append (by simp)
  · intro pdf hdoc hc hsize hdl raw hex htrim hsave hlen
    have hsz : ¬ MAX_PDF_SIZE < pdf.size := Nat.not_lt.mpr hsize
    simp only [runEnd, processPdfPreprocess, hdoc, hc, hsz, hdl, hex, htrim, hsave,
      hlen, habs, if_true, if_false, ite_false, Bool.false_eq_true]

/-- A concrete environment identical to the happy one except that the
document record is gone at the pre-insert re-check. -/
def envGone : WorkerEnv where
  doc := some pdfSmall
  download := Except.ok ()
  extract := Except.ok ('a' :: [])
  sanitize := fun s => s
  hashHex := fun s => s
  saveRes := WriteRes.ok
  destroyOk := true
  dbAtRecheck := ⟨false, PStatus.deleting, none, none⟩
  chunker := fun _ => [⟨0, 'a' :: []⟩]
  insertRes := WriteRes.ok

/-- C5 amended witness: with the record absent at the re-check, the
concrete run writes no chunk insert and returns the terminal
pdf_deleted_during_processing result. -/
theorem worker_recheck_absent_aborts_witness :
    (∀ n, Op.insertChunks n ∉ runTrace envGone)
    ∧ runEnd envGone = RunEnd.returned (permanentFailure "pdf_deleted_during_processing") :=
  ⟨(worker_recheck_absent_aborts envGone rfl).1,
    (worker_recheck_absent_aborts envGone rfl).2 pdfSmall rfl (by decide) (by decide)
      rfl ('a' :: []) rfl (by decide) rfl (by decide)⟩

/-- Decide whether the second list starts with the first. -/
def startsWithSeq : List Char → List Char → Bool
  | [], _ => true
  | _ :: _, [] => false
  | a :: ps, b :: ss => a == b && startsWithSeq ps ss

/-- Model of the JavaScript string includes test: does the needle occur
contiguously anywhere in the haystack. -/
def containsSeq (pat : List Char) : List Char → Bool
  | [] => startsWithSeq pat []
  | b :: ss => startsWithSeq pat (b :: ss) || containsSeq pat ss

theorem startsWithSeq_iff (pat s : List Char) :
    startsWithSeq pat s = true ↔ pat <+: s := by
  induction pat generalizing s with
  | nil => simp [startsWithSeq]
  | cons a ps ih =>
    cases s with
    | nil => simp [startsWithSeq]
    | cons b ss =>
      simp only [startsWithSeq, Bool.and_eq_true, beq_iff_eq, List.cons_prefix_cons]
      exact and_congr Iff.rfl (ih ss)

theorem containsSeq_iff (pat s : List Char) :
    containsSeq pat s = true ↔ pat <:+: s := by
  induction s with
  | nil =>
    rw [containsSeq, startsWithSeq_iff]
    constructor
    · intro h
      rw [List.prefix_nil.mp h]
    · intro h
      rw [List.infix_nil.mp h]
  | cons b ss ih =>
    simp only [containsSeq, Bool.or_eq_true, startsWithSeq_iff, ih]
    exact (List.infix_cons_iff).symm

/-- How the broker's add call ends: accepted, or rejected with an error
whose message may be absent. -/
inductive AddOutcome
  | ok
  | err (msg : Option String)
deriving Repr, DecidableEq

/-- The phrase the producer looks for in a rejected add's error message. -/
def jobExistsNeedle : String := "Job already exists"

/-- Model of enqueuePdfPreprocess (pdfPreprocess.queue.js lines 38-57): an
accepted add returns normally; a rejected add whose message contains the
Job already exists phrase is swallowed and the call returns normally; any
other rejection, including one whose error has no message, is rethrown. -/
def enqueuePdfPreprocess (pdfId : String) (addRes : AddOutcome) :
    Except (Option String) Unit :=
  match addRes with
  | AddOutcome.ok => Except.ok ()
  | AddOutcome.err msg =>
    match msg with
    | some m =>
      if containsSeq jobExistsNeedle.data m.data then Except.ok ()
      else Except.error (some m)
    | none => Except.error none

/-- C7: for every document id, enqueuePdfPreprocess returns normally when
the add is accepted and when the add is rejected with a message containing
the Job already exists phrase, and rethrows every other rejection. -/
theorem enqueue_swallows_job_exists (pdfId : String) :
    enqueuePdfPreprocess pdfId AddOutcome.ok = Except.ok ()
    ∧ (∀ m : String, jobExistsNeedle.data <:+: m.data →
        enqueuePdfPreprocess pdfId (AddOutcome.err (some m)) = Except.ok ())
    ∧ (∀ m : String, ¬ jobExistsNeedle.data <:+: m.data →
        enqueuePdfPreprocess pdfId (AddOutcome.err (some m)) = Except.error (some m))
    ∧ enqueuePdfPreprocess pdfId (AddOutcome.err none) = Except.error none := by
  refine ⟨rfl, ?_, ?_, rfl⟩
  · intro m hm
    simp only [enqueuePdfPreprocess]
    rw [if_pos ((containsSeq_iff _ _).mpr hm)]
  · intro m hm
    simp only [enqueuePdfPreprocess]
    rw [if_neg (fun hc => hm ((containsSeq_iff _ _).mp hc))]

/-- C7 witness: a rejection carrying exactly the Job already exists message
is swallowed, and a rejection with another message is rethrown. -/
theorem enqueue_swallows_job_exists_witness :
    enqueuePdfPreprocess "p1" (AddOutcome.err (some "Job already exists"))
      = Except.ok ()
    ∧ enqueuePdfPreprocess "p1" (AddOutcome.err (some "boom"))
      = Except.error (some "boom") :=
  ⟨(enqueue_swallows_job_exists "p1").2.1 "Job already exists" List.infix_rfl,
    (enqueue_swallows_job_exists "p1").2.2.1 "boom"
      (fun h => absurd ((containsSeq_iff _ _).mpr h) (by decide))⟩

/-- The per-document fields the orphan sweep reads from the document
store. -/
structure OrphanDoc where
  docId : Nat
  preprocessStatus : PStatus
deriving Repr, DecidableEq

/-- Document-store find with a status in-list filter, as issued by the
sweep. -/
def findByStatusIn (db : List OrphanDoc) (statuses : List PStatus) : List OrphanDoc :=
  db.filter (fun d => decide (d.preprocessStatus ∈ statuses))

/-- Model of recoverOrphanedPdfs (server.js): query the documents whose
preprocessStatus is pending or processing, return early with no enqueues
when there are none, and otherwise enqueue each found document id in
order. The returned list is the ordered list of ids passed to
enqueuePdfPreprocess. -/
def recoverOrphanedPdfs (db : List OrphanDoc) : List Nat :=
  if (findByStatusIn db [PStatus.pending, PStatus.processing]).isEmpty then []
  else (findByStatusIn db [PStatus.pending, PStatus.processing]).map (fun d => d.docId)

/-- C8: over a store whose document ids are distinct, the sweep enqueues
each document whose preprocessStatus is pending or processing exactly once,
and enqueues documents in the completed, failed or deleting states not at
all. -/
theorem sweep_enqueues_exactly_stuck (db : List OrphanDoc)
    (hids : (db.map (fun d => d.docId)).Nodup) :
    ∀ d ∈ db,
      ((d.preprocessStatus = PStatus.pending ∨ d.preprocessStatus = PStatus.processing) →
        (recoverOrphanedPdfs db).count d.docId = 1)
      ∧ ((d.preprocessStatus = PStatus.completed ∨ d.preprocessStatus = PStatus.failed
            ∨ d.preprocessStatus = PStatus.deleting) →
        (recoverOrphanedPdfs db).count d.docId = 0) := by
  intro d hd
  constructor
  · intro hstat
    have hmem : d ∈ findByStatusIn db [PStatus.pending, PStatus.processing] := by
      unfold findByStatusIn
      rw [List.mem_filter]
      refine ⟨hd, ?_⟩
      rcases hstat with h | h <;> simp [h]
    have hne : (findByStatusIn db [PStatus.pending, PStatus.processing]).isEmpty ≠ true := by
      intro he
      rw [List.isEmpty_iff] at he
      rw [he] at hmem
      exact absurd hmem (by simp)
    unfold recoverOrphanedPdfs
    rw [if_neg hne]
    have hnodupmap :
        ((findByStatusIn db [PStatus.pending, PStatus.processing]).map
          (fun d => d.docId)).Nodup :=
      List.Nodup.sublist (List.Sublist.map _ (List.filter_sublist db)) hids
    exact List.count_eq_one_of_mem hnodupmap (List.mem_map.mpr ⟨d, hmem, rfl⟩)
  · intro hstat
    unfold recoverOrphanedPdfs
    by_cases he : (findByStatusIn db [PStatus.pending, PStatus.processing]).isEmpty = true
    · rw [if_pos he]
      rfl
    · rw [if_neg he]
      rw [List.count_eq_zero]
      intro hmem
      rcases List.mem_map.mp hmem with ⟨d2, hd2, hid⟩
      have hd2f := List.mem_filter.mp hd2
      have hdd : d2 = d := List.inj_on_of_nodup_map hids hd2f.1 hd hid
      rw [hdd] at hd2f
      rcases hstat with h | h | h <;> simp [h] at hd2f

/-- A concrete store with one pending, one processing and one completed
document. -/
def dbSample : List OrphanDoc :=
  [⟨1, PStatus.pending⟩, ⟨2, PStatus.processing⟩, ⟨3, PStatus.completed⟩]

/-- C8 witness: on the concrete three-document store the pending document
is enqueued exactly once and the completed one not at all. -/
theorem sweep_enqueues_exactly_stuck_witness :
    (recoverOrphanedPdfs dbSample).count 1 = 1
    ∧ (recoverOrphanedPdfs dbSample).count 3 = 0 :=
  ⟨(sweep_enqueues_exactly_stuck dbSample (by decide) ⟨1, PStatus.pending⟩
      (by decide)).1 (Or.inl rfl),
    (sweep_enqueues_exactly_stuck dbSample (by decide) ⟨3, PStatus.completed⟩
      (by decide)).2 (Or.inl rfl)⟩

end Debatrium
